import Mathlib

/-!
Verification development for the organism_ai task-execution engine.

The definitions below are shallow embeddings of the Python sources:
`src/organism/safety/validator.py`, `src/organism/core/evaluator.py`,
`src/organism/core/planner.py`, `src/organism/core/loop.py` and
`src/organism/agents/orchestrator.py`.  Machine integers are modelled as
`Int`/`Nat`, Python floats that only ever hold literal constants on the
modelled paths as `ℚ`, Python strings as `String` (lists of unicode
scalars), and dictionaries as association lists.  Wall-clock durations,
logging side effects and the external model/tool processes are abstracted:
a tool invocation and an evaluator invocation are parameters of the step
executor (a function of the dispatched input and the attempt number),
which is exactly the information flow of the source.  Fallible Python
calls are modelled with explicit outcome types.
-/

/-- The six ASCII characters Python `str.strip` and the regex class
`\s` treat as whitespace (the inputs modelled here are ASCII-spaced). -/
def isPySpace (c : Char) : Bool :=
  c = ' ' || c = '\t' || c = '\n' || c = '\r' || c = '\x0B' || c = '\x0C'

/-- Python `s.strip()` on a list of characters. -/
def pystripL (l : List Char) : List Char :=
  ((l.dropWhile isPySpace).reverse.dropWhile isPySpace).reverse

/-- Python `needle in hay` substring test on characters. -/
def hasSub (need : List Char) : List Char → Bool
  | [] => need.isEmpty
  | c :: t => need.isPrefixOf (c :: t) || hasSub need t

/-- Python `needle in hay` on strings. -/
def strHasSub (need hay : String) : Bool :=
  hasSub need.data hay.data

/-- Python `s[:n]` prefix truncation. -/
def pyTake (n : Nat) (s : String) : String :=
  ⟨s.data.take n⟩

/-- Python `repr` of a list of strings, as interpolated by an f-string. -/
def pyListRepr (l : List String) : String :=
  "[" ++ String.intercalate ", " (l.map (fun s => "\x27" ++ s ++ "\x27")) ++ "]"

/-! ## Safety validator (`src/organism/safety/validator.py`) -/

/-- `ValidationResult` dataclass. -/
structure ValidationResult where
  allowed : Bool
  reason : String := ""
  requires_confirmation : Bool := false
deriving DecidableEq, Repr

/-- `BLACKLIST`: operations that are never allowed. -/
def BLACKLIST : List String :=
  ["os.system", "subprocess", "shutil.rmtree",
   "os.remove", "os.unlink", "os.rmdir",
   "open(\x27/etc", "open(\x27/proc", "open(\x27/sys",
   "os.environ", "__import__(\x27os\x27).system",
   "eval(", "exec(compile("]

/-- `YELLOWLIST`: operations that require user confirmation. -/
def YELLOWLIST : List String :=
  ["requests.post", "requests.put", "requests.delete",
   "smtplib", "socket.connect"]

/-- First element of `l` satisfying `p`, following the Python scan order. -/
def firstMatch (p : String → Bool) : List String → Option String
  | [] => none
  | s :: rest => if p s then some s else firstMatch p rest

/-- `SafetyValidator.validate_code`. -/
def validate_code (code : String) : ValidationResult :=
  match firstMatch (fun pat => strHasSub pat code) BLACKLIST with
  | some pat =>
      { allowed := false, reason := "Blocked pattern detected: \x27" ++ pat ++ "\x27" }
  | none =>
      match firstMatch (fun pat => strHasSub pat code) YELLOWLIST with
      | some pat =>
          { allowed := true, reason := "Sensitive operation detected: \x27" ++ pat ++ "\x27",
            requires_confirmation := true }
      | none => { allowed := true }

/-- The private/loopback fragments scanned by `validate_domains`. -/
def NET_BLOCK : List String :=
  ["localhost", "127.0.0.1", "169.254", "10.", "192.168."]

/-- The `suspicious` list comprehension inside `validate_domains`. -/
def suspiciousOf (domains : List String) : List String :=
  domains.filter (fun d => NET_BLOCK.any (fun s => strHasSub s d))

/-- `SafetyValidator.validate_domains`. -/
def validate_domains (domains : List String) : ValidationResult :=
  let susp := suspiciousOf domains
  if susp.isEmpty then { allowed := true }
  else { allowed := false,
         reason := "Internal network access not allowed: " ++ pyListRepr susp }

/-! ## Tool results and the evaluator (`src/organism/core/evaluator.py`,
`src/organism/tools/base.py`) -/

/-- `ToolResult` dataclass from `tools/base.py`. -/
structure ToolResult where
  output : String
  error : String := ""
  exit_code : Int := 0
deriving DecidableEq, Repr

/-- The `ToolResult.success` property: `exit_code == 0 and not self.error`. -/
def ToolResult.successB (r : ToolResult) : Bool :=
  r.exit_code == 0 && r.error == ""

/-- `EvalResult` dataclass.  `quality_score` only ever holds literal
rational constants on the modelled paths, so it is embedded as `ℚ`. -/
structure EvalResult where
  success : Bool
  reason : String
  retry_hint : String := ""
  quality_score : ℚ := 0
deriving DecidableEq, Repr

/-- `Evaluator.evaluate`.  The completion-service tier (prompt build, model
call and `_parse`) is abstracted as `judge`; the returned flag records
whether that service was consulted. -/
def evaluate (judge : ToolResult → EvalResult) (r : ToolResult) : EvalResult × Bool :=
  if r.exit_code = -1 then
    ({ success := false, reason := r.error,
       retry_hint := "Fix the code to avoid timeout or system errors.",
       quality_score := 0 }, false)
  else if r.exit_code ≠ 0 ∧ r.error ≠ "" then
    ({ success := false, reason := "Code exited with code " ++ toString r.exit_code,
       retry_hint := "Fix this error: " ++ pyTake 300 r.error,
       quality_score := 1/10 }, false)
  else
    (judge r, true)

/-! ## Plan data model (`src/organism/core/planner.py`) -/

/-- A Python value stored in a step's `input` dict.  String payloads and
lists of strings (the `domains` input) are the only shapes the modelled
code paths consume; other JSON shapes are opaque to them. -/
inductive Value where
  | str (s : String)
  | intV (n : Int)
  | strList (l : List String)
deriving DecidableEq, Repr

/-- A step's `input`: a string-keyed dict as an association list. -/
def InputMap : Type := List (String × Value)

instance : DecidableEq InputMap := by
  unfold InputMap
  infer_instance

instance : Membership (String × Value) InputMap := by
  unfold InputMap
  infer_instance

/-- Python `d.get(k)`: the value stored at the first matching key. -/
def getVal (m : InputMap) (k : String) : Option Value :=
  match m with
  | [] => none
  | (k2, v) :: rest => if k2 = k then some v else getVal rest k

/-- Python `d.get(k, default)` where the stored value is a string
(the only shape the modelled code paths read). -/
def getStrD (m : InputMap) (k : String) (d : String) : String :=
  match getVal m k with
  | some (.str s) => s
  | _ => d

/-- Python `k in d`. -/
def hasKey (m : InputMap) (k : String) : Bool :=
  (getVal m k).isSome

/-- Python `d[k] = v`: replace in place or append. -/
def setKey (m : InputMap) (k : String) (v : Value) : InputMap :=
  match m with
  | [] => [(k, v)]
  | (k2, w) :: rest => if k2 = k then (k, v) :: rest else (k2, w) :: setKey rest k v

/-- `PlanStep` dataclass. -/
structure PlanStep where
  id : Int
  tool : String
  description : String
  input : InputMap
  depends_on : List Int := []
deriving DecidableEq

/-! ## Planner response parsing (`_extract_json`, `_sanitize_json`,
`_parse_steps` in `src/organism/core/planner.py`) -/

/-- The substitution `re.sub(r'^```(?:json)?\s*', '', text)`: drop a
leading fence, an optional `json` tag and the following whitespace. -/
def stripLeadFence (l : List Char) : List Char :=
  if "```".data.isPrefixOf l then
    if "json".data.isPrefixOf (l.drop 3) then ((l.drop 3).drop 4).dropWhile isPySpace
    else (l.drop 3).dropWhile isPySpace
  else l

/-- The substitution `re.sub(r'\s*```$', '', text)`: drop a trailing fence
and the whitespace before it (the input is already right-stripped, so `$`
is the end of the string). -/
def stripTrailFence (l : List Char) : List Char :=
  if "```".data.isPrefixOf l.reverse then
    ((l.reverse.drop 3).dropWhile isPySpace).reverse
  else l

/-- Index of the first occurrence of `c` in `l`. -/
def firstIdxOf (c : Char) : List Char → Option Nat
  | [] => none
  | x :: t => if x = c then some 0 else (firstIdxOf c t).map (fun i => i + 1)

/-- Index of the last occurrence of `c` in `l`. -/
def lastIdxOf (c : Char) (l : List Char) : Option Nat :=
  (firstIdxOf c l.reverse).map (fun i => l.length - 1 - i)

/-- The array-extraction core of `_extract_json`: `text.startswith('[')`
short-circuit, then the greedy regex `\[[\s\S]*\]`, whose unique match
runs from the first `[` that precedes the last `]` to that last `]`. -/
def extractCore (l : List Char) : List Char :=
  if l.head? = some '[' then l
  else
    match firstIdxOf '[' l, lastIdxOf ']' l with
    | some i, some j => if i < j then (l.drop i).take (j - i + 1) else l
    | _, _ => l

/-- `_extract_json`. -/
def _extract_json (s : String) : String :=
  let l0 := pystripL s.data
  let l1 := stripLeadFence l0
  let l2 := stripTrailFence l1
  let l3 := pystripL l2
  ⟨extractCore l3⟩

/-- The character loop of `_sanitize_json`: `prev` is the previous
character of the original text (`none` at position 0). -/
def sanitizeGo : Bool → Option Char → List Char → List Char
  | _, _, [] => []
  | inStr, prev, c :: rest =>
    if c = '"' ∧ prev ≠ some '\\' then
      c :: sanitizeGo (!inStr) (some c) rest
    else if inStr ∧ c = '\n' then
      '\\' :: 'n' :: sanitizeGo inStr (some c) rest
    else if inStr ∧ c = '\r' then
      '\\' :: 'r' :: sanitizeGo inStr (some c) rest
    else if inStr ∧ c = '\t' then
      '\\' :: 't' :: sanitizeGo inStr (some c) rest
    else
      c :: sanitizeGo inStr (some c) rest

/-- `_sanitize_json`. -/
def _sanitize_json (s : String) : String :=
  ⟨sanitizeGo false none s.data⟩

/-- One decoded array item as consumed by `_parse_steps`: optional
fields are absent keys (subscripting a missing tool key raises, so items
in this function's domain carry one). -/
structure JItem where
  id : Option Int := none
  tool : String
  description : Option String := none
  input : Option InputMap := none
  params : Option InputMap := none
  depends_on : Option (List Int) := none
deriving DecidableEq

/-- `item.get('input') or item.get('params') or {}` — Python `or`
falls through both a missing key and an empty (falsy) dict. -/
def itemInput (it : JItem) : InputMap :=
  match it.input with
  | some m => if m.isEmpty then (match it.params with
      | some p => p
      | none => []) else m
  | none =>
    match it.params with
    | some p => p
    | none => []

/-- The `for i, item in enumerate(data)` decoding loop of
`_parse_steps`, starting at position `i`: a missing `id` defaults to the
positional index + 1, a missing `description` to the tool name, a
missing `depends_on` to `[]`. -/
def parseStepsFrom (i : Nat) : List JItem → List PlanStep
  | [] => []
  | it :: rest =>
    { id := it.id.getD (Int.ofNat i + 1),
      tool := it.tool,
      description := it.description.getD it.tool,
      input := itemInput it,
      depends_on := it.depends_on.getD [] } :: parseStepsFrom (i + 1) rest

/-- The decoding loop of `_parse_steps` over already-decoded items. -/
def parseStepsItems (items : List JItem) : List PlanStep :=
  parseStepsFrom 0 items

/-! ## Plan validation (`CoreLoop._validate_plan` in
`src/organism/core/loop.py`) -/

/-- `CoreLoop.MAX_RETRIES`. -/
def MAX_RETRIES : Nat := 3

/-- `CoreLoop.MAX_PLAN_STEPS`. -/
def MAX_PLAN_STEPS : Nat := 5

/-- The per-step tool-specific required-key checks, in source order
(at most one branch fires, keyed on the tool name). -/
def requiredKeyErr (s : PlanStep) : Option String :=
  if s.tool = "code_executor" ∧ ¬hasKey s.input "code" then
    some ("Step " ++ toString s.id ++ ": code_executor requires \x27code\x27 in input")
  else if s.tool = "web_search" ∧ ¬hasKey s.input "query" then
    some ("Step " ++ toString s.id ++ ": web_search requires \x27query\x27 in input")
  else if s.tool = "web_fetch" ∧ ¬hasKey s.input "url" then
    some ("Step " ++ toString s.id ++ ": web_fetch requires \x27url\x27 in input")
  else if s.tool = "text_writer" ∧ ¬hasKey s.input "prompt" then
    some ("Step " ++ toString s.id ++ ": text_writer requires \x27prompt\x27 in input")
  else if s.tool = "pptx_creator" ∧ ¬hasKey s.input "topic" then
    some ("Step " ++ toString s.id ++ ": pptx_creator requires \x27topic\x27 in input")
  else none

/-- The `for dep in step.depends_on` loop. -/
def depErr (ids : List Int) (sid : Int) : List Int → Option String
  | [] => none
  | d :: rest =>
    if ¬ids.contains d then
      some ("Step " ++ toString sid ++ ": depends_on references non-existent step " ++ toString d)
    else if d ≥ sid then
      some ("Step " ++ toString sid ++ ": depends_on step " ++ toString d ++
            " which comes after (circular)")
    else depErr ids sid rest

/-- The body of the `for step in steps` loop: tool registration, required
keys, then dependency checks, short-circuiting. -/
def stepErr (reg : List String) (ids : List Int) (s : PlanStep) : Option String :=
  if ¬reg.contains s.tool then
    some ("Step " ++ toString s.id ++ ": tool \x27" ++ s.tool ++ "\x27 not found. Available: " ++
          pyListRepr reg)
  else
    match requiredKeyErr s with
    | some e => some e
    | none => depErr ids s.id s.depends_on

/-- The step loop of `_validate_plan`. -/
def stepsErr (reg : List String) (ids : List Int) : List PlanStep → Option String
  | [] => none
  | s :: rest =>
    match stepErr reg ids s with
    | some e => some e
    | none => stepsErr reg ids rest

/-- `CoreLoop._validate_plan`: returns an error message, or `none` for a
valid plan. -/
def _validate_plan (reg : List String) (steps : List PlanStep) : Option String :=
  if steps.isEmpty then some "Empty plan — no steps generated"
  else if steps.length > MAX_PLAN_STEPS then
    some ("Plan has " ++ toString steps.length ++ " steps, maximum is " ++
          toString MAX_PLAN_STEPS)
  else stepsErr reg (steps.map (fun s => s.id)) steps

/-- The validity predicate exactly as the specification words it: plan
non-empty, at most `MAX_PLAN_STEPS` steps, every tool registered, every
tool-specific required key present, and every dependency id present in
the plan and strictly smaller than its referencer's id.  Stated
independently of `_validate_plan` to compare the two. -/
def planOkSpec (reg : List String) (steps : List PlanStep) : Prop :=
  steps ≠ [] ∧ steps.length ≤ MAX_PLAN_STEPS ∧
  ∀ s ∈ steps,
    s.tool ∈ reg ∧
    (s.tool = "code_executor" → hasKey s.input "code" = true) ∧
    (s.tool = "web_search" → hasKey s.input "query" = true) ∧
    (s.tool = "web_fetch" → hasKey s.input "url" = true) ∧
    (s.tool = "text_writer" → hasKey s.input "prompt" = true) ∧
    (s.tool = "pptx_creator" → hasKey s.input "topic" = true) ∧
    ∀ d ∈ s.depends_on, d ∈ steps.map (fun s2 => s2.id) ∧ d < s.id

instance (reg : List String) (steps : List PlanStep) :
    Decidable (planOkSpec reg steps) := by
  unfold planOkSpec
  infer_instance

/-! ## Step executor (`CoreLoop._execute_step` in
`src/organism/core/loop.py`)

A tool invocation (`await tool.execute(step_input)`) either returns a
`ToolResult` or raises; the evaluator invocation likewise.  Both external
processes are abstracted as functions of the dispatched data and the
attempt number; the executor additionally returns the list of inputs it
dispatched to the tool, in order, so that theorems can speak about what
was sent.  Wall-clock durations and log emission are not modelled. -/

/-- Outcome of one `tool.execute` call: a result, or a raised exception
whose text is the `f"{type(exc).__name__}: {exc}"` tail produced by
`log_exception`. -/
inductive ExecOutcome where
  | raise (msg : String)
  | ok (r : ToolResult)
deriving DecidableEq

/-- Outcome of one `evaluator.evaluate` call. -/
inductive EvalOutcome where
  | raise (msg : String)
  | ok (e : EvalResult)
deriving DecidableEq

/-- The two external behaviours one step interacts with. -/
structure StepBehavior where
  toolExec : InputMap → Nat → ExecOutcome
  evalFn : ToolResult → Nat → EvalOutcome

/-- `StepLog` dataclass (duration omitted: wall-clock time is not
modelled). -/
structure StepLog where
  step_id : Int
  tool : String
  description : String
  output : String
  error : String
  success : Bool
  attempts : Nat := 1
  quality_score : ℚ := 0
deriving DecidableEq

/-- The `try/except` around `evaluator.evaluate`: a crash is replaced by
`EvalResult(success=result.exit_code == 0, reason="Evaluator unavailable")`
with the dataclass defaults for the remaining fields. -/
def evalDecision (ev : ToolResult → Nat → EvalOutcome) (r : ToolResult) (a : Nat) : EvalResult :=
  match ev r a with
  | .raise _ => { success := r.exit_code == 0, reason := "Evaluator unavailable" }
  | .ok e => e

/-- The failure `StepLog` built after the `for attempt` loop exhausts:
output and error come from the last attempt's result and evaluation. -/
def exhaustedLog (step : PlanStep) (last : Option (ToolResult × EvalResult)) : StepLog :=
  { step_id := step.id, tool := step.tool, description := step.description,
    output := match last with | some (r, _) => r.output | none => "",
    error := match last with | some (_, e) => e.reason | none => "Max retries exceeded",
    success := false, attempts := MAX_RETRIES }

/-- The `for attempt in range(1, MAX_RETRIES + 1)` loop.  `attempt` is the
1-based attempt number, `remaining` the number of iterations left,
`last` the previous iteration's `(result, eval_result)` pair.  Also
returns the inputs dispatched to the tool. -/
def execAttempts (b : StepBehavior) (step : PlanStep) (ctx : String) :
    InputMap → Nat → Nat → Option (ToolResult × EvalResult) → StepLog × List InputMap
  | _, _, 0, last => (exhaustedLog step last, [])
  | inp, attempt, remaining + 1, _ =>
    match b.toolExec inp attempt with
    | .raise msg =>
      ({ step_id := step.id, tool := step.tool, description := step.description,
         output := "", error := ctx ++ ": " ++ msg, success := false,
         attempts := attempt }, [inp])
    | .ok r =>
      let e := evalDecision b.evalFn r attempt
      if e.success then
        ({ step_id := step.id, tool := step.tool, description := step.description,
           output := r.output, error := "", success := true,
           attempts := attempt, quality_score := e.quality_score }, [inp])
      else
        let inp2 :=
          if e.retry_hint ≠ "" ∧ step.tool = "code_executor" then
            setKey inp "code"
              (.str ("# Previous failed: " ++ e.retry_hint ++ "\n" ++ getStrD inp "code" ""))
          else inp
        let rec2 := execAttempts b step ctx inp2 (attempt + 1) remaining (some (r, e))
        (rec2.1, inp :: rec2.2)

/-- `CoreLoop._execute_step`: safety gate (code tools only), registry
lookup, then the attempt loop.  `ctx` is the `f"[{task_id}] Step {id}
crashed"` prefix `log_exception` prepends to a raised fault's text. -/
def execStep (reg : List String) (b : StepBehavior) (ctx : String) (step : PlanStep) :
    StepLog × List InputMap :=
  if step.tool = "code_executor" ∧ ¬(validate_code (getStrD step.input "code" "")).allowed then
    ({ step_id := step.id, tool := step.tool, description := step.description,
       output := "",
       error := "Safety block: " ++ (validate_code (getStrD step.input "code" "")).reason,
       success := false }, [])
  else if ¬reg.contains step.tool then
    ({ step_id := step.id, tool := step.tool, description := step.description,
       output := "",
       error := "Tool \x27" ++ step.tool ++ "\x27 not found in registry. Available: " ++
                pyListRepr reg,
       success := false }, [])
  else execAttempts b step ctx step.input 1 MAX_RETRIES none

/-! ## Placeholder substitution and the task loop (`CoreLoop.run`,
lines 256–312 of `src/organism/core/loop.py`) -/

/-- `int(digits)` for the digit group captured by `\d+`. -/
def digitsToNat (ds : List Char) : Nat :=
  ds.foldl (fun a c => a * 10 + (c.toNat - 48)) 0

/-- Match the regex `\{\{step_(\d+)_output\}\}` at the head of `l`;
on success return the captured number and the rest of the text. -/
def matchPlaceholder (l : List Char) : Option (Nat × List Char) :=
  if "\x7b\x7bstep_".data.isPrefixOf l then
    if (l.drop 7).takeWhile Char.isDigit ≠ [] ∧
        "_output\x7d\x7d".data.isPrefixOf ((l.drop 7).dropWhile Char.isDigit) then
      some (digitsToNat ((l.drop 7).takeWhile Char.isDigit),
            ((l.drop 7).dropWhile Char.isDigit).drop 9)
    else none
  else none

/-- The accumulated step-output map `step_outputs : dict[int, str]`. -/
def lookupOut (outs : List (Int × String)) (n : Int) : Option String :=
  match outs with
  | [] => none
  | (k, v) :: rest => if k = n then some v else lookupOut rest n

/-- `step_outputs[id] = output`. -/
def setOut (outs : List (Int × String)) (n : Int) (v : String) : List (Int × String) :=
  match outs with
  | [] => [(n, v)]
  | (k, w) :: rest => if k = n then (n, v) :: rest else (k, w) :: setOut rest n v

/-- The scan of `re.sub(r"\{\{step_(\d+)_output\}\}", ...)`: each match is
replaced by `step_outputs.get(n, "")` (replacements are not rescanned);
elsewhere the scan advances one character.  `fuel` bounds the recursion
and is always instantiated with the text length, which every scan step
strictly dominates. -/
def substLoop (outs : List (Int × String)) : Nat → List Char → List Char
  | _, [] => []
  | 0, l => l
  | fuel + 1, c :: rest =>
    match matchPlaceholder (c :: rest) with
    | some (n, rest2) =>
      ((lookupOut outs (Int.ofNat n)).getD "").data ++ substLoop outs fuel rest2
    | none => c :: substLoop outs fuel rest

/-- The placeholder substitution applied to one string input value. -/
def pySubst (outs : List (Int × String)) (s : String) : String :=
  ⟨substLoop outs s.data.length s.data⟩

/-- Resolution of one input value: strings get placeholder substitution,
non-string values pass through unchanged. -/
def resolveValue (outs : List (Int × String)) : Value → Value
  | .str s => .str (pySubst outs s)
  | v => v

/-- The `resolved_input` dict built for each step. -/
def resolveInput (outs : List (Int × String)) (m : InputMap) : InputMap :=
  m.map (fun p => (p.1, resolveValue outs p.2))

/-- The fields of `TaskResult` the execution loop determines. -/
structure TaskOutcome where
  success : Bool
  output : String
  steps : List StepLog
  error : String := ""
deriving DecidableEq

/-- The step-execution loop of `CoreLoop.run` (after planning and
validation): resolve placeholders, execute, accumulate outputs on
success, and abort the task on the first failed step with the last
successful output and a `Step {id} failed: {error}` message.  `b` and
`ctx` give each step id its external behaviour and crash-log prefix. -/
def runPlan (reg : List String) (b : Int → StepBehavior) (ctx : Int → String) :
    List PlanStep → List (Int × String) → String → TaskOutcome
  | [], _, lastOut => { success := true, output := lastOut, steps := [] }
  | step :: rest, outs, lastOut =>
    let rstep : PlanStep :=
      { id := step.id, tool := step.tool, description := step.description,
        input := resolveInput outs step.input, depends_on := step.depends_on }
    let log := (execStep reg (b step.id) (ctx step.id) rstep).1
    if log.success then
      let res := runPlan reg b ctx rest (setOut outs step.id log.output) log.output
      { res with steps := log :: res.steps }
    else
      { success := false, output := lastOut, steps := [log],
        error := "Step " ++ toString step.id ++ " failed: " ++ log.error }

/-- The output of the last record of `logs`, or `d` when there is none
(`last_output` after a prefix of successful steps). -/
def lastOutput (logs : List StepLog) (d : String) : String :=
  (logs.getLast?).elim d (fun lg => lg.output)

/-! ## Orchestrator (`Orchestrator.run` in
`src/organism/agents/orchestrator.py`)

The routing call is external; `orchSteps` models the delegation loop over
an already-parsed delegation list.  Each known agent is abstracted as a
function from its sub-task text to its `AgentResult`; the loop also
returns the `(agent, task)` pairs actually dispatched to an agent. -/

/-- `AgentResult` dataclass (duration omitted). -/
structure AgentResult where
  agent : String
  task : String
  output : String
  success : Bool
  error : String := ""
deriving DecidableEq

/-- The orchestration outcome fields the delegation loop determines. -/
structure OrchOutcome where
  success : Bool
  output : String
  agent_results : List AgentResult
deriving DecidableEq

/-- `self._agents.get(name)`. -/
def lookupAgent (agents : List (String × (String → AgentResult))) (name : String) :
    Option (String → AgentResult) :=
  match agents with
  | [] => none
  | (k, f) :: rest => if k = name then some f else lookupAgent rest name

/-- The `for d in delegation` loop: inject accumulated context, skip
unknown agents with a synthesized failed record, invoke known agents and
fold successful outputs (truncated to 800 characters) into the context.
Returns `(agent_results, final context, dispatched invocations)`. -/
def orchSteps (agents : List (String × (String → AgentResult))) :
    List (String × String) → String → List AgentResult × String × List (String × String)
  | [], ctx => ([], ctx, [])
  | (name, task) :: rest, ctx =>
    let task2 := if ctx ≠ "" then task ++ "\n\nContext from previous steps:\n" ++ ctx else task
    match lookupAgent agents name with
    | none =>
      let r := orchSteps agents rest ctx
      ({ agent := name, task := task2, output := "", success := false,
         error := "Unknown agent: " ++ name } :: r.1, r.2)
    | some run =>
      let ar := run task2
      let ctx2 :=
        if ar.success then ctx ++ "\n[" ++ name ++ "] result:\n" ++ pyTake 800 ar.output ++ "\n"
        else ctx
      let r := orchSteps agents rest ctx2
      (ar :: r.1, r.2.1, (name, task2) :: r.2.2)

/-- Steps 2–3 of `Orchestrator.run` on a parsed delegation list: overall
success is `len(successful) > 0`, the output is the stripped context. -/
def orchRun (agents : List (String × (String → AgentResult)))
    (delegation : List (String × String)) : OrchOutcome × List (String × String) :=
  let r := orchSteps agents delegation ""
  ({ success := r.1.any (fun a => a.success),
     output := ⟨pystripL r.2.1.data⟩,
     agent_results := r.1 }, r.2.2)

/-! # Theorems -/

/-- C3: evaluation of a `ToolResult` with exit code −1 immediately
returns failure at quality 0.0 without consulting the completion
service; a result with some other non-zero exit code and non-empty error
text immediately returns failure at near-zero quality (0.1) with a retry
hint built from the 300-character-truncated error, also without the
completion service; and on either fast path the classification does not
depend on the completion service at all, so re-evaluating an identical
result classifies it identically. -/
theorem evaluator_fast_path (judge : ToolResult → EvalResult) (r : ToolResult) :
    (r.exit_code = -1 →
      evaluate judge r =
        ({ success := false, reason := r.error,
           retry_hint := "Fix the code to avoid timeout or system errors.",
           quality_score := 0 }, false)) ∧
    (r.exit_code ≠ -1 → r.exit_code ≠ 0 → r.error ≠ "" →
      evaluate judge r =
        ({ success := false, reason := "Code exited with code " ++ toString r.exit_code,
           retry_hint := "Fix this error: " ++ pyTake 300 r.error,
           quality_score := 1/10 }, false)) ∧
    (∀ judge2 : ToolResult → EvalResult,
      (r.exit_code = -1 ∨ (r.exit_code ≠ 0 ∧ r.error ≠ "")) →
      evaluate judge r = evaluate judge2 r) := by
  refine ⟨fun h => by simp [evaluate, h], fun h1 h2 h3 => by simp [evaluate, h1, h2, h3],
    fun judge2 h => ?_⟩
  rcases h with h | ⟨h2, h3⟩
  · simp [evaluate, h]
  · by_cases hm : r.exit_code = -1
    · simp [evaluate, hm]
    · simp [evaluate, hm, h2, h3]

/-- C3 witness: the timeout sentinel result takes the deterministic
branch regardless of what the judged path would say. -/
theorem evaluator_fast_path_witness :
    evaluate (fun _ => { success := true, reason := "judged" })
        { output := "", error := "Timeout (30s)", exit_code := -1 } =
      ({ success := false, reason := "Timeout (30s)",
         retry_hint := "Fix the code to avoid timeout or system errors.",
         quality_score := 0 }, false) :=
  (evaluator_fast_path (fun _ => { success := true, reason := "judged" })
    { output := "", error := "Timeout (30s)", exit_code := -1 }).1 rfl

/-- C10: a crash of the evaluator during a step attempt is replaced by
the substituted decision `success = (exit_code == 0)`, reason
"Evaluator unavailable", empty retry hint and quality 0.0, and the
attempt loop run against crashing evaluations is literally the same
computation as the loop run against those substituted decisions — so an
evaluator fault never by itself fails the task. -/
theorem evaluator_crash_substitution :
    (∀ (ev : ToolResult → Nat → EvalOutcome) (r : ToolResult) (a : Nat) (msg : String),
      ev r a = .raise msg →
      evalDecision ev r a =
        { success := r.exit_code == 0, reason := "Evaluator unavailable",
          retry_hint := "", quality_score := 0 }) ∧
    (∀ (b : StepBehavior) (step : PlanStep) (ctx : String) (inp : InputMap)
       (attempt remaining : Nat) (last : Option (ToolResult × EvalResult)),
      execAttempts b step ctx inp attempt remaining last =
      execAttempts { b with evalFn := fun r a => .ok (evalDecision b.evalFn r a) }
        step ctx inp attempt remaining last) := by
  constructor
  · intro ev r a msg h
    simp [evalDecision, h]
  · intro b step ctx inp attempt remaining last
    induction remaining generalizing inp attempt last with
    | zero => rfl
    | succ n ih =>
      simp only [execAttempts]
      cases hb : b.toolExec inp attempt with
      | raise msg => rfl
      | ok r =>
        have hed : evalDecision (fun r a => EvalOutcome.ok (evalDecision b.evalFn r a)) r attempt
            = evalDecision b.evalFn r attempt := rfl
        simp only [hed]
        by_cases hs : (evalDecision b.evalFn r attempt).success
        · simp [hs]
        · simp [hs, ih]

/-- C10 witness: a concrete crashing evaluation over an exit-0 result is
substituted by a successful decision. -/
theorem evaluator_crash_substitution_witness :
    evalDecision (fun _ _ => .raise "RuntimeError: down")
        { output := "out", error := "", exit_code := 0 } 1 =
      { success := true, reason := "Evaluator unavailable",
        retry_hint := "", quality_score := 0 } := by
  have h := evaluator_crash_substitution.1 (fun _ _ => .raise "RuntimeError: down")
    { output := "out", error := "", exit_code := 0 } 1 "RuntimeError: down" rfl
  simpa using h

/-- C4 (amended): the deny-list scan runs once per `code_executor` step,
on the step's initial (resolved) code, before the first dispatch: a
deny-list match there fails the step immediately with a safety-block
error, no tool invocation made and no attempt consumed.  (Code mutated
by a retry hint on later attempts is re-dispatched without re-scanning;
see the counterexample.) -/
theorem safety_gate_blocks_initial_code (reg : List String) (b : StepBehavior)
    (ctx : String) (step : PlanStep)
    (htool : step.tool = "code_executor")
    (hblock : (validate_code (getStrD step.input "code" "")).allowed = false) :
    execStep reg b ctx step =
      ({ step_id := step.id, tool := step.tool, description := step.description,
         output := "",
         error := "Safety block: " ++ (validate_code (getStrD step.input "code" "")).reason,
         success := false }, []) := by
  simp [execStep, htool, hblock]

/-- C4 witness: a step whose initial code spawns a subprocess is blocked
with no dispatch. -/
theorem safety_gate_blocks_initial_code_witness :
    execStep ["code_executor"]
        ⟨fun _ _ => .ok { output := "" }, fun _ _ => .ok { success := true, reason := "" }⟩
        "c"
        { id := 1, tool := "code_executor", description := "d",
          input := [("code", Value.str "import subprocess")] } =
      ({ step_id := 1, tool := "code_executor", description := "d",
         output := "",
         error := "Safety block: Blocked pattern detected: \x27subprocess\x27",
         success := false }, []) := by
  have h := safety_gate_blocks_initial_code ["code_executor"]
    ⟨fun _ _ => .ok { output := "" }, fun _ _ => .ok { success := true, reason := "" }⟩
    "c"
    { id := 1, tool := "code_executor", description := "d",
      input := [("code", Value.str "import subprocess")] }
    rfl (by decide)
  rw [h]
  decide

/-- C4 counterexample: with clean initial code, a retry hint naming
`os.system` is prepended to the retried attempts' code, and those
attempts are dispatched to the tool even though their code now contains
a deny-listed pattern — the scan is not re-evaluated before re-dispatch. -/
theorem safety_gate_not_rescanned_counterexample :
    ((execStep ["code_executor"]
        ⟨fun _ _ => .ok { output := "", error := "err", exit_code := 1 },
         fun _ _ => .ok { success := false, reason := "fail", retry_hint := "use os.system" }⟩
        "c"
        { id := 1, tool := "code_executor", description := "d",
          input := [("code", Value.str "print(1)")] }).2.any
      (fun i => !(validate_code (getStrD i "code" "")).allowed)) = true := by
  decide

/-- C5 (amended): a tool invocation that raises a fault makes the step
fail immediately: the record carries the formatted fault text as its
error and the current attempt number as its attempt count, and no
further invocation is made — the remaining retry budget is abandoned,
not consumed in place. -/
theorem tool_fault_immediate_step_failure (reg : List String) (b : StepBehavior)
    (ctx : String) (step : PlanStep) (msg : String)
    (hsafe : step.tool = "code_executor" →
      (validate_code (getStrD step.input "code" "")).allowed = true)
    (hreg : reg.contains step.tool = true)
    (hraise : b.toolExec step.input 1 = .raise msg) :
    execStep reg b ctx step =
      ({ step_id := step.id, tool := step.tool, description := step.description,
         output := "", error := ctx ++ ": " ++ msg, success := false,
         attempts := 1 }, [step.input]) := by
  unfold execStep
  have h1 : ¬(step.tool = "code_executor" ∧
      ¬(validate_code (getStrD step.input "code" "")).allowed = true) :=
    fun hc => hc.2 (hsafe hc.1)
  have h2 : ¬¬(reg.contains step.tool = true) := not_not_intro hreg
  rw [if_neg h1, if_neg h2, show MAX_RETRIES = 2 + 1 from rfl]
  simp only [execAttempts, hraise]

/-- C5 witness: a fault on attempt 1 yields a failed record with
attempt count 1 and the fault text, after a single dispatch. -/
theorem tool_fault_immediate_step_failure_witness :
    execStep ["web_search"]
        ⟨fun _ _ => .raise "RuntimeError: boom",
         fun _ _ => .ok { success := true, reason := "" }⟩
        "[t1] Step 1 crashed"
        { id := 1, tool := "web_search", description := "d",
          input := [("query", Value.str "q")] } =
      ({ step_id := 1, tool := "web_search", description := "d",
         output := "", error := "[t1] Step 1 crashed: RuntimeError: boom",
         success := false, attempts := 1 }, [[("query", Value.str "q")]]) := by
  exact tool_fault_immediate_step_failure ["web_search"]
    ⟨fun _ _ => .raise "RuntimeError: boom",
     fun _ _ => .ok { success := true, reason := "" }⟩
    "[t1] Step 1 crashed"
    { id := 1, tool := "web_search", description := "d",
      input := [("query", Value.str "q")] }
    "RuntimeError: boom" (fun h => absurd h (by decide)) rfl rfl

/-- C5 counterexample: after a fault on attempt 1 the step settles with
a single tool invocation and attempt count 1, although the retry budget
would have allowed `MAX_RETRIES = 3` attempts — the remaining attempts
are not made in place, contrary to the claim. -/
theorem tool_fault_no_remaining_attempts_counterexample :
    (execStep ["web_search"]
        ⟨fun _ _ => .raise "ValueError: bad",
         fun _ _ => .ok { success := true, reason := "" }⟩
        "c"
        { id := 2, tool := "web_search", description := "d",
          input := [("query", Value.str "q2")] }).1.attempts = 1 ∧
    (execStep ["web_search"]
        ⟨fun _ _ => .raise "ValueError: bad",
         fun _ _ => .ok { success := true, reason := "" }⟩
        "c"
        { id := 2, tool := "web_search", description := "d",
          input := [("query", Value.str "q2")] }).2.length = 1 ∧
    1 < MAX_RETRIES := by
  decide

/-- C9 (amended): `validate_domains` classifies a requested target list
as disallowed exactly when some entry contains a private or loopback
fragment (`localhost`, `127.0.0.1`, `169.254`, `10.`, `192.168.`), but
the executor never invokes it: the only pre-dispatch gate of a
`code_executor` step is the code deny-list scan, and a step whose code
passes that scan is dispatched — with its full input, requested domains
included — regardless of those domains. -/
theorem validate_domains_dead_check :
    (∀ domains : List String,
      (validate_domains domains).allowed = true ↔
        ∀ d ∈ domains, ∀ pat ∈ NET_BLOCK, strHasSub pat d = false) ∧
    (∀ (reg : List String) (b : StepBehavior) (ctx : String) (step : PlanStep),
      step.tool = "code_executor" →
      (validate_code (getStrD step.input "code" "")).allowed = true →
      reg.contains step.tool = true →
      (execStep reg b ctx step).2.head? = some step.input) := by
  constructor
  · intro domains
    unfold validate_domains suspiciousOf
    by_cases h : (domains.filter (fun d => NET_BLOCK.any (fun s => strHasSub s d))) = []
    · have hE : (domains.filter (fun d => NET_BLOCK.any (fun s => strHasSub s d))).isEmpty
          = true := by
        rw [List.isEmpty_iff]
        exact h
      rw [List.filter_eq_nil_iff] at h
      simp only [hE, if_true]
      constructor
      · intro _ d hd pat hpat
        cases hb : strHasSub pat d with
        | false => rfl
        | true =>
          exact absurd (List.any_eq_true.mpr ⟨pat, hpat, hb⟩) (h d hd)
      · intro _
        trivial
    · have hE : (domains.filter (fun d => NET_BLOCK.any (fun s => strHasSub s d))).isEmpty
          = false := by
        cases hE2 : (domains.filter (fun d => NET_BLOCK.any (fun s => strHasSub s d))).isEmpty
        · rfl
        · exact absurd (List.isEmpty_iff.mp hE2) h
      simp only [hE, Bool.false_eq_true, if_false]
      constructor
      · intro hfalse
        exact absurd hfalse (by simp)
      · intro hall
        refine absurd ?_ h
        rw [List.filter_eq_nil_iff]
        intro d hd hcontra
        obtain ⟨pat, hpat, htrue⟩ := List.any_eq_true.mp hcontra
        rw [hall d hd pat hpat] at htrue
        cases htrue
  · intro reg b ctx step htool hallow hreg
    unfold execStep
    have h1 : ¬(step.tool = "code_executor" ∧
        ¬(validate_code (getStrD step.input "code" "")).allowed = true) :=
      fun hc => hc.2 hallow
    have h2 : ¬¬(reg.contains step.tool = true) := not_not_intro hreg
    rw [if_neg h1, if_neg h2, show MAX_RETRIES = 2 + 1 from rfl]
    simp only [execAttempts]
    cases hb : b.toolExec step.input 1 with
    | raise msg => simp [hb]
    | ok r =>
      simp only [hb]
      by_cases hs : (evalDecision b.evalFn r 1).success = true
      · simp [hs]
      · simp [hs]

/-- C9 witness: a clean code step requesting only public domains is
dispatched with its full input. -/
theorem validate_domains_dead_check_witness :
    (execStep ["code_executor"]
        ⟨fun _ _ => .ok { output := "ok" }, fun _ _ => .ok { success := true, reason := "" }⟩
        "c"
        { id := 1, tool := "code_executor", description := "d",
          input := [("code", Value.str "print(3)"),
                    ("domains", Value.strList ["example.com"])] }).2.head? =
      some [("code", Value.str "print(3)"), ("domains", Value.strList ["example.com"])] := by
  exact validate_domains_dead_check.2 ["code_executor"]
    ⟨fun _ _ => .ok { output := "ok" }, fun _ _ => .ok { success := true, reason := "" }⟩
    "c"
    { id := 1, tool := "code_executor", description := "d",
      input := [("code", Value.str "print(3)"),
                ("domains", Value.strList ["example.com"])] }
    rfl (by decide) rfl

/-- C9 counterexample: a step requesting the loopback target
`localhost` — which `validate_domains` classifies as disallowed — is
nevertheless dispatched to the tool (one invocation), because nothing on
the dispatch path calls `validate_domains`. -/
theorem validate_domains_not_called_counterexample :
    (validate_domains ["localhost"]).allowed = false ∧
    (execStep ["code_executor"]
        ⟨fun _ _ => .ok { output := "done" }, fun _ _ => .ok { success := true, reason := "ok" }⟩
        "c"
        { id := 1, tool := "code_executor", description := "d",
          input := [("code", Value.str "print(2)"),
                    ("domains", Value.strList ["localhost"])] }).2.length = 1 := by
  decide

/-- `List.contains` agrees with membership under a lawful `BEq`. -/
theorem contains_iff_mem {α : Type} [BEq α] [LawfulBEq α] (l : List α) (a : α) :
    l.contains a = true ↔ a ∈ l := by
  induction l with
  | nil => simp [List.contains]
  | cons b rest ih => simp [List.contains]

/-- The required-key check of one step succeeds exactly when each
tool-specific key obligation holds. -/
theorem requiredKeyErr_eq_none_iff (s : PlanStep) :
    requiredKeyErr s = none ↔
      ((s.tool = "code_executor" → hasKey s.input "code" = true) ∧
       (s.tool = "web_search" → hasKey s.input "query" = true) ∧
       (s.tool = "web_fetch" → hasKey s.input "url" = true) ∧
       (s.tool = "text_writer" → hasKey s.input "prompt" = true) ∧
       (s.tool = "pptx_creator" → hasKey s.input "topic" = true)) := by
  unfold requiredKeyErr
  split_ifs with h1 h2 h3 h4 h5
  · exact ⟨fun hc => absurd hc (by simp), fun hr => absurd (hr.1 h1.1) h1.2⟩
  · exact ⟨fun hc => absurd hc (by simp), fun hr => absurd (hr.2.1 h2.1) h2.2⟩
  · exact ⟨fun hc => absurd hc (by simp), fun hr => absurd (hr.2.2.1 h3.1) h3.2⟩
  · exact ⟨fun hc => absurd hc (by simp), fun hr => absurd (hr.2.2.2.1 h4.1) h4.2⟩
  · exact ⟨fun hc => absurd hc (by simp), fun hr => absurd (hr.2.2.2.2 h5.1) h5.2⟩
  · refine ⟨fun _ => ⟨?_, ?_, ?_, ?_, ?_⟩, fun _ => rfl⟩
    · intro ht; by_contra hk; exact h1 ⟨ht, hk⟩
    · intro ht; by_contra hk; exact h2 ⟨ht, hk⟩
    · intro ht; by_contra hk; exact h3 ⟨ht, hk⟩
    · intro ht; by_contra hk; exact h4 ⟨ht, hk⟩
    · intro ht; by_contra hk; exact h5 ⟨ht, hk⟩

/-- The dependency loop of one step succeeds exactly when every
dependency id is present and strictly smaller than the step's id. -/
theorem depErr_eq_none_iff (ids : List Int) (sid : Int) (deps : List Int) :
    depErr ids sid deps = none ↔ ∀ d ∈ deps, ids.contains d = true ∧ d < sid := by
  induction deps with
  | nil => simp [depErr]
  | cons d rest ih =>
    unfold depErr
    by_cases hc : ids.contains d = true
    · rw [if_neg (not_not_intro hc)]
      by_cases hge : d ≥ sid
      · rw [if_pos hge]
        exact ⟨fun h => absurd h (by simp),
          fun hr => absurd (hr d (by simp)).2 (not_lt.mpr hge)⟩
      · rw [if_neg hge, ih]
        constructor
        · intro hall d2 hd2
          rcases List.mem_cons.mp hd2 with h | h
          · subst h
            exact ⟨hc, lt_of_not_ge hge⟩
          · exact hall d2 h
        · intro hall d2 hd2
          exact hall d2 (List.mem_cons_of_mem _ hd2)
    · rw [if_pos hc]
      exact ⟨fun h => absurd h (by simp), fun hr => absurd (hr d (by simp)).1 hc⟩

/-- One step passes its loop body exactly when its tool is registered,
its required keys are present and its dependencies check out. -/
theorem stepErr_eq_none_iff (reg : List String) (ids : List Int) (s : PlanStep) :
    stepErr reg ids s = none ↔
      (s.tool ∈ reg ∧ requiredKeyErr s = none ∧ depErr ids s.id s.depends_on = none) := by
  unfold stepErr
  by_cases h : reg.contains s.tool = true
  · rw [if_neg (not_not_intro h)]
    cases he : requiredKeyErr s with
    | some e =>
      simp only [he]
      exact ⟨fun hc => absurd hc (by simp),
        fun hr => Option.noConfusion hr.2.1⟩
    | none =>
      simp only [he]
      constructor
      · intro hd
        exact ⟨(contains_iff_mem reg s.tool).mp h, trivial, hd⟩
      · intro hr
        exact hr.2.2
  · rw [if_pos h]
    exact ⟨fun hc => absurd hc (by simp),
      fun hr => absurd ((contains_iff_mem reg s.tool).mpr hr.1) h⟩

/-- The step loop of the validator succeeds exactly when every step
passes its body. -/
theorem stepsErr_eq_none_iff (reg : List String) (ids : List Int) (steps : List PlanStep) :
    stepsErr reg ids steps = none ↔ ∀ s ∈ steps, stepErr reg ids s = none := by
  induction steps with
  | nil => simp [stepsErr]
  | cons s rest ih =>
    unfold stepsErr
    cases he : stepErr reg ids s with
    | some e =>
      simp only [he]
      exact ⟨fun hc => absurd hc (by simp),
        fun hr => Option.noConfusion ((hr s (by simp)).symm.trans he)⟩
    | none =>
      simp only [he]
      rw [ih]
      constructor
      · intro hall s2 hs2
        rcases List.mem_cons.mp hs2 with h | h
        · subst h
          exact he
        · exact hall s2 h
      · intro hall s2 hs2
        exact hall s2 (List.mem_cons_of_mem _ hs2)

/-- C2: the plan validator returns no error exactly when the plan is
non-empty, has at most `MAX_PLAN_STEPS` steps, every step's tool is
registered, every tool-specific required input key is present, and every
dependency id exists in the plan and is strictly smaller than its
referencer's id; and the two-step plan whose step 2 declares
`depends_on: [2]` is rejected with an error naming step 2. -/
theorem plan_validator_correct (reg : List String) (steps : List PlanStep) :
    (_validate_plan reg steps = none ↔ planOkSpec reg steps) ∧
    _validate_plan ["web_search"]
      [{ id := 1, tool := "web_search", description := "a",
         input := [("query", Value.str "x")] },
       { id := 2, tool := "web_search", description := "b",
         input := [("query", Value.str "y")], depends_on := [2] }] =
      some "Step 2: depends_on step 2 which comes after (circular)" := by
  constructor
  · unfold _validate_plan planOkSpec
    split_ifs with hE hL
    · rw [List.isEmpty_iff] at hE
      exact ⟨fun hc => absurd hc (by simp), fun hr => absurd hE hr.1⟩
    · exact ⟨fun hc => absurd hc (by simp), fun hr => absurd hr.2.1 (not_le.mpr hL)⟩
    · rw [stepsErr_eq_none_iff]
      constructor
      · intro hall
        refine ⟨fun h => hE (by rw [h]; rfl), le_of_not_lt hL, ?_⟩
        intro s hs
        obtain ⟨hmem, hkeys, hdeps⟩ := (stepErr_eq_none_iff _ _ _).mp (hall s hs)
        rw [requiredKeyErr_eq_none_iff] at hkeys
        rw [depErr_eq_none_iff] at hdeps
        refine ⟨hmem, hkeys.1, hkeys.2.1, hkeys.2.2.1, hkeys.2.2.2.1, hkeys.2.2.2.2, ?_⟩
        intro d hd
        exact ⟨(contains_iff_mem _ _).mp (hdeps d hd).1, (hdeps d hd).2⟩
      · rintro ⟨hne, hlen, hall⟩ s hs
        rw [stepErr_eq_none_iff, requiredKeyErr_eq_none_iff, depErr_eq_none_iff]
        obtain ⟨hmem, k1, k2, k3, k4, k5, hdeps⟩ := hall s hs
        exact ⟨hmem, ⟨k1, k2, k3, k4, k5⟩,
          fun d hd => ⟨(contains_iff_mem _ _).mpr (hdeps d hd).1, (hdeps d hd).2⟩⟩
  · decide

/-- C2 witness: a well-formed single-step plan over a registered tool
with its required key is accepted. -/
theorem plan_validator_correct_witness :
    _validate_plan ["web_search"]
      [{ id := 1, tool := "web_search", description := "a",
         input := [("query", Value.str "x")] }] = none :=
  (plan_validator_correct ["web_search"]
    [{ id := 1, tool := "web_search", description := "a",
       input := [("query", Value.str "x")] }]).1.mpr (by decide)

/-- Structural facts about the delegation loop, for any starting
context: one record per delegation entry; only known agents are ever
dispatched to; an unknown name contributes a synthesized failed record. -/
theorem orchSteps_props (agents : List (String × (String → AgentResult))) :
    ∀ (delegation : List (String × String)) (ctx : String),
      (orchSteps agents delegation ctx).1.length = delegation.length ∧
      (∀ p ∈ (orchSteps agents delegation ctx).2.2,
        (lookupAgent agents p.1).isSome = true) ∧
      (∀ nt ∈ delegation, lookupAgent agents nt.1 = none →
        ∃ a ∈ (orchSteps agents delegation ctx).1,
          a.agent = nt.1 ∧ a.success = false ∧ a.error = "Unknown agent: " ++ nt.1) := by
  intro delegation
  induction delegation with
  | nil =>
    intro ctx
    refine ⟨rfl, ?_, ?_⟩ <;> simp [orchSteps]
  | cons d rest ih =>
    intro ctx
    obtain ⟨name, task⟩ := d
    cases hl : lookupAgent agents name with
    | none =>
      simp only [orchSteps, hl]
      refine ⟨by simp [(ih ctx).1], (ih ctx).2.1, ?_⟩
      intro nt hnt hnone
      rcases List.mem_cons.mp hnt with h | h
      · subst h
        exact ⟨_, List.mem_cons_self _ _, rfl, rfl, rfl⟩
      · obtain ⟨a, ha, hprops⟩ := (ih ctx).2.2 nt h hnone
        exact ⟨a, List.mem_cons_of_mem _ ha, hprops⟩
    | some run =>
      simp only [orchSteps, hl]
      set task2 := if ctx ≠ "" then task ++ "\n\nContext from previous steps:\n" ++ ctx else task
      set ctx2 := if (run task2).success then
          ctx ++ "\n[" ++ name ++ "] result:\n" ++ pyTake 800 (run task2).output ++ "\n"
        else ctx
      refine ⟨by simp [(ih ctx2).1], ?_, ?_⟩
      · intro p hp
        rcases List.mem_cons.mp hp with h | h
        · subst h
          simp [hl]
        · exact (ih ctx2).2.1 p h
      · intro nt hnt hnone
        rcases List.mem_cons.mp hnt with h | h
        · subst h
          exact absurd hl (by rw [hnone]; exact fun hx => Option.noConfusion hx)
        · obtain ⟨a, ha, hprops⟩ := (ih ctx2).2.2 nt h hnone
          exact ⟨a, List.mem_cons_of_mem _ ha, hprops⟩

/-- C7: for an orchestrated task whose routing parsed, overall success
holds exactly when some delegated agent's result succeeded; an empty
delegation list yields no agent results and failure; there is one agent
record per delegation entry; only known agent names are ever dispatched
to; and a delegation record naming an unknown agent contributes a failed
record with an `Unknown agent` error, without any agent invocation. -/
theorem orchestrator_success_iff (agents : List (String × (String → AgentResult)))
    (delegation : List (String × String)) :
    ((orchRun agents delegation).1.success = true ↔
      ∃ a ∈ (orchRun agents delegation).1.agent_results, a.success = true) ∧
    (delegation = [] →
      (orchRun agents delegation).1.agent_results = [] ∧
      (orchRun agents delegation).1.success = false) ∧
    (orchRun agents delegation).1.agent_results.length = delegation.length ∧
    (∀ p ∈ (orchRun agents delegation).2, (lookupAgent agents p.1).isSome = true) ∧
    (∀ nt ∈ delegation, lookupAgent agents nt.1 = none →
      ∃ a ∈ (orchRun agents delegation).1.agent_results,
        a.agent = nt.1 ∧ a.success = false ∧ a.error = "Unknown agent: " ++ nt.1) := by
  have h := orchSteps_props agents delegation ""
  refine ⟨?_, ?_, h.1, h.2.1, h.2.2⟩
  · simp only [orchRun]
    exact List.any_eq_true
  · intro hd
    subst hd
    exact ⟨rfl, rfl⟩

/-- C7 witness: a delegation list with one known (failing) agent and one
unknown name yields a synthesized failed record for the unknown name. -/
theorem orchestrator_success_iff_witness :
    ∃ a ∈ (orchRun
        [("coder", fun t => { agent := "coder", task := t, output := "",
                              success := false, error := "E" })]
        [("coder", "t1"), ("ghost", "t2")]).1.agent_results,
      a.agent = "ghost" ∧ a.success = false ∧ a.error = "Unknown agent: " ++ "ghost" := by
  exact (orchestrator_success_iff
    [("coder", fun t => { agent := "coder", task := t, output := "",
                          success := false, error := "E" })]
    [("coder", "t1"), ("ghost", "t2")]).2.2.2.2 ("ghost", "t2") (by simp) rfl

/-- A list is a `isPrefixOf`-prefix of itself followed by anything. -/
theorem isPrefixOf_append_self {α : Type} [BEq α] [LawfulBEq α] :
    ∀ (xs ys : List α), xs.isPrefixOf (xs ++ ys) = true
  | [], _ => by simp [List.isPrefixOf]
  | x :: xs, ys => by
    simp [List.isPrefixOf, isPrefixOf_append_self xs ys]

/-- `firstIdxOf` finds the marker right after a marker-free prefix. -/
theorem firstIdxOf_append_cons (c : Char) :
    ∀ (p : List Char), c ∉ p → ∀ (r : List Char),
      firstIdxOf c (p ++ c :: r) = some p.length := by
  intro p
  induction p with
  | nil =>
    intro _ r
    simp [firstIdxOf]
  | cons x p' ih =>
    intro hnc r
    have hx : ¬x = c := fun h => hnc (h ▸ List.mem_cons_self x p')
    have ih2 := ih (fun h => hnc (List.mem_cons_of_mem _ h)) r
    show firstIdxOf c (x :: (p' ++ c :: r)) = some (p'.length + 1)
    unfold firstIdxOf
    rw [if_neg hx, ih2, Option.map_some']

/-- Taking one more than a prefix length from a cons-append keeps the
head and the prefix. -/
theorem take_cons_append (a : Char) (u v : List Char) :
    List.take (u.length + 1) (a :: (u ++ v)) = a :: u := by
  rw [List.take_succ_cons, List.take_left]

/-- The greedy regex core: in a text made of a non-empty bracket-free
preamble, a bracketed span and a `]`-free tail, extraction returns the
span from the first `[` to the last `]`. -/
theorem extractCore_span (p m q : List Char) (hp : p ≠ []) (hpb : '[' ∉ p)
    (hqb : ']' ∉ q) :
    extractCore (p ++ '[' :: (m ++ ']' :: q)) = '[' :: (m ++ [']']) := by
  obtain ⟨x, p', rfl⟩ : ∃ x p', p = x :: p' := by
    cases p with
    | nil => exact absurd rfl hp
    | cons x p' => exact ⟨x, p', rfl⟩
  have hx : ¬x = '[' := fun h => hpb (h ▸ List.mem_cons_self x p')
  have hq' : ']' ∉ q.reverse := fun h => hqb (List.mem_reverse.mp h)
  have hrev : ((x :: p') ++ '[' :: (m ++ ']' :: q)).reverse
      = q.reverse ++ ']' :: (m.reverse ++ '[' :: (x :: p').reverse) := by
    simp
  have h1 : firstIdxOf '[' ((x :: p') ++ '[' :: (m ++ ']' :: q)) = some (p'.length + 1) :=
    firstIdxOf_append_cons '[' (x :: p') hpb _
  have h2 : lastIdxOf ']' ((x :: p') ++ '[' :: (m ++ ']' :: q))
      = some (p'.length + 1 + m.length + 1) := by
    unfold lastIdxOf
    rw [hrev, firstIdxOf_append_cons ']' q.reverse hq', Option.map_some']
    refine congrArg some ?_
    simp only [List.length_append, List.length_cons, List.length_reverse]
    omega
  unfold extractCore
  rw [if_neg (by simp [hx])]
  simp only [h1, h2]
  rw [if_pos (by omega)]
  have e2 : x :: p' ++ '[' :: (m ++ ']' :: q)
      = (x :: p') ++ ('[' :: (m ++ [']']) ++ q) := by simp
  have e3 : p'.length + 1 + m.length + 1 - (p'.length + 1) + 1 = m.length + 2 := by omega
  rw [e2, e3, show p'.length + 1 = (x :: p').length from rfl, List.drop_left]
  have e5 : m.length + 2 = (m ++ [']']).length + 1 := by
    simp only [List.length_append, List.length_cons, List.length_nil]
  rw [e5]
  exact take_cons_append '[' (m ++ [']']) q

/-- The leading-fence substitution drops a ```` ```json ```` marker and
the whitespace after it. -/
theorem stripLeadFence_json (l : List Char) :
    stripLeadFence ("```json".data ++ l) = l.dropWhile isPySpace := by
  show stripLeadFence ('\x60' :: '\x60' :: '\x60' :: 'j' :: 's' :: 'o' :: 'n' :: l)
      = l.dropWhile isPySpace
  unfold stripLeadFence
  rw [if_pos (by simp [List.isPrefixOf])]
  rw [show List.drop 3 ('\x60' :: '\x60' :: '\x60' :: 'j' :: 's' :: 'o' :: 'n' :: l)
      = 'j' :: 's' :: 'o' :: 'n' :: l from rfl]
  rw [if_pos (by simp [List.isPrefixOf])]
  rfl

/-- The trailing-fence substitution drops a final ```` ``` ```` marker
and right-strips the whitespace before it. -/
theorem stripTrailFence_strip (l : List Char) :
    stripTrailFence (l ++ "```".data) = (l.reverse.dropWhile isPySpace).reverse := by
  unfold stripTrailFence
  have e1 : (l ++ "```".data).reverse = '\x60' :: '\x60' :: '\x60' :: l.reverse := by
    rw [List.reverse_append]
    rfl
  rw [e1, if_pos (by simp [List.isPrefixOf])]
  rfl

/-- Pointwise description of the decoding loop from any starting index:
the defaults are positional. -/
theorem parseStepsFrom_get :
    ∀ (items : List JItem) (i j : Nat) (it : JItem),
      items.get? j = some it →
      (parseStepsFrom i items).get? j =
        some { id := it.id.getD (Int.ofNat (i + j) + 1), tool := it.tool,
               description := it.description.getD it.tool,
               input := itemInput it, depends_on := it.depends_on.getD [] } := by
  intro items
  induction items with
  | nil =>
    intro i j it h
    simp at h
  | cons a rest ih =>
    intro i j it h
    cases j with
    | zero =>
      rw [List.get?_cons_zero] at h
      injection h with h2
      subst h2
      simp [parseStepsFrom]
    | succ j' =>
      rw [List.get?_cons_succ] at h
      simp only [parseStepsFrom, List.get?_cons_succ]
      rw [ih (i + 1) j' it h]
      have e : i + 1 + j' = i + (j' + 1) := by omega
      rw [e]

/-- C8 (amended): parsing strips leading/trailing code-fence markers and
escapes bare newline, carriage-return and tab characters inside quoted
strings, but its array extraction is the greedy regex `\[[\s\S]*\]`: it
returns the span from the first `[` to the last `]` of the text — not
the last bracketed array; a text with two arrays yields the whole span
including the prose between them.  Decoding defaults a missing `id` to
the positional index + 1 and a missing `description` to the tool name. -/
theorem plan_parsing_greedy_span :
    (∀ l : List Char, stripLeadFence ("```json".data ++ l) = l.dropWhile isPySpace) ∧
    (∀ l : List Char,
      stripTrailFence (l ++ "```".data) = (l.reverse.dropWhile isPySpace).reverse) ∧
    (∀ p m q : List Char, p ≠ [] → '[' ∉ p → ']' ∉ q →
      extractCore (p ++ '[' :: (m ++ ']' :: q)) = '[' :: (m ++ [']'])) ∧
    (∀ (items : List JItem) (j : Nat) (it : JItem),
      items.get? j = some it →
      (parseStepsItems items).get? j =
        some { id := it.id.getD (Int.ofNat j + 1), tool := it.tool,
               description := it.description.getD it.tool,
               input := itemInput it, depends_on := it.depends_on.getD [] }) ∧
    _sanitize_json "\"a\nb\"" = "\"a\\nb\"" ∧
    _sanitize_json "\"a\tb\r\"" = "\"a\\tb\\r\"" := by
  refine ⟨stripLeadFence_json, stripTrailFence_strip, extractCore_span, ?_,
    by decide, by decide⟩
  intro items j it h
  have h0 := parseStepsFrom_get items 0 j it h
  rw [Nat.zero_add] at h0
  exact h0

/-- C8 witness: a concrete preamble/array/tail decomposition is
extracted as the bracketed span. -/
theorem plan_parsing_greedy_span_witness :
    extractCore ("ab".data ++ '[' :: ("1".data ++ ']' :: "cd".data))
      = '[' :: ("1".data ++ [']']) :=
  plan_parsing_greedy_span.2.2.1 "ab".data "1".data "cd".data
    (by decide) (by decide) (by decide)

/-- C8 counterexample: a response containing two bracketed arrays is not
resolved to the last array — the greedy extraction returns the whole
span from the first `[` to the last `]`, prose included. -/
theorem plan_parsing_last_array_counterexample :
    _extract_json "noise [1, 2] mid [3]" = "[1, 2] mid [3]" ∧
    ("[1, 2] mid [3]" : String) ≠ "[3]" := by
  decide

/-- `takeWhile` over a block of satisfying elements followed by a
failing one keeps exactly the block. -/
theorem takeWhile_append_all (p : Char → Bool) :
    ∀ (xs : List Char), (∀ x ∈ xs, p x = true) → ∀ (y : Char) (ys : List Char),
      p y = false → (xs ++ y :: ys).takeWhile p = xs := by
  intro xs
  induction xs with
  | nil =>
    intro _ y ys hy
    simp [List.takeWhile_cons, hy]
  | cons a xs ih =>
    intro hall y ys hy
    have ha : p a = true := hall a (by simp)
    simp [List.takeWhile_cons, ha, ih (fun x hx => hall x (by simp [hx])) y ys hy]

/-- `dropWhile` over a block of satisfying elements followed by a
failing one drops exactly the block. -/
theorem dropWhile_append_all (p : Char → Bool) :
    ∀ (xs : List Char), (∀ x ∈ xs, p x = true) → ∀ (y : Char) (ys : List Char),
      p y = false → (xs ++ y :: ys).dropWhile p = y :: ys := by
  intro xs
  induction xs with
  | nil =>
    intro _ y ys hy
    simp [List.dropWhile_cons, hy]
  | cons a xs ih =>
    intro hall y ys hy
    have ha : p a = true := hall a (by simp)
    simp [List.dropWhile_cons, ha, ih (fun x hx => hall x (by simp [hx])) y ys hy]

/-- A boolean prefix is no longer than the list it prefixes. -/
theorem isPrefixOf_length_le {α : Type} [BEq α] [LawfulBEq α] :
    ∀ (xs ys : List α), xs.isPrefixOf ys = true → xs.length ≤ ys.length
  | [], _, _ => Nat.zero_le _
  | _ :: _, [], h => by simp [List.isPrefixOf] at h
  | x :: xs, y :: ys, h => by
    simp only [List.isPrefixOf, Bool.and_eq_true] at h
    simpa using isPrefixOf_length_le xs ys h.2

/-- A successful placeholder match strictly shrinks the text. -/
theorem matchPlaceholder_length_lt {l r : List Char} {n : Nat}
    (h : matchPlaceholder l = some (n, r)) : r.length < l.length := by
  unfold matchPlaceholder at h
  by_cases h1 : ("\x7b\x7bstep_".data).isPrefixOf l = true
  · rw [if_pos h1] at h
    by_cases h2 : ((l.drop 7).takeWhile Char.isDigit ≠ [] ∧
        ("_output\x7d\x7d".data).isPrefixOf ((l.drop 7).dropWhile Char.isDigit) = true)
    · rw [if_pos h2] at h
      injection h with h3
      have h5 : ((l.drop 7).dropWhile Char.isDigit).drop 9 = r := congrArg Prod.snd h3
      have hp7 : ("\x7b\x7bstep_".data).length ≤ l.length :=
        isPrefixOf_length_le _ _ h1
      have hp7e : ("\x7b\x7bstep_".data).length = 7 := rfl
      have h9 : ("_output\x7d\x7d".data).length
          ≤ ((l.drop 7).dropWhile Char.isDigit).length :=
        isPrefixOf_length_le _ _ h2.2
      have h9e : ("_output\x7d\x7d".data).length = 9 := rfl
      have hdw : ((l.drop 7).dropWhile Char.isDigit).length ≤ (l.drop 7).length :=
        (List.dropWhile_suffix _).length_le
      have hd7 : (l.drop 7).length = l.length - 7 := by
        rw [List.length_drop]
      have hr : r.length = ((l.drop 7).dropWhile Char.isDigit).length - 9 := by
        rw [← h5, List.length_drop]
      omega
    · rw [if_neg h2] at h
      exact Option.noConfusion h
  · rw [if_neg h1] at h
    exact Option.noConfusion h

/-- `substLoop` does not depend on the fuel once the fuel dominates the
text length. -/
theorem substLoop_mono (outs : List (Int × String)) :
    ∀ (f1 : Nat) (l : List Char) (f2 : Nat), l.length ≤ f1 → l.length ≤ f2 →
      substLoop outs f1 l = substLoop outs f2 l := by
  intro f1
  induction f1 with
  | zero =>
    intro l f2 h1 _
    have hl : l = [] := List.length_eq_zero.mp (Nat.le_zero.mp h1)
    subst hl
    cases f2 <;> rfl
  | succ g ih =>
    intro l f2 h1 h2
    cases l with
    | nil => cases f2 <;> rfl
    | cons c rest =>
      have hlc : (c :: rest).length = rest.length + 1 := rfl
      cases f2 with
      | zero => omega
      | succ g2 =>
        simp only [substLoop]
        cases hm : matchPlaceholder (c :: rest) with
        | none =>
          show c :: substLoop outs g rest = c :: substLoop outs g2 rest
          rw [ih rest g2 (by omega) (by omega)]
        | some nr =>
          obtain ⟨n, r2⟩ := nr
          have hlt := matchPlaceholder_length_lt hm
          show ((lookupOut outs (Int.ofNat n)).getD "").data ++ substLoop outs g r2
              = ((lookupOut outs (Int.ofNat n)).getD "").data ++ substLoop outs g2 r2
          rw [ih r2 g2 (by omega) (by omega)]

/-- One unfolding of the scan on a non-empty text with fuel left. -/
theorem substLoop_cons (outs : List (Int × String)) (fl : Nat) (c : Char)
    (rest : List Char) :
    substLoop outs (fl + 1) (c :: rest) =
      match matchPlaceholder (c :: rest) with
      | some (n, rest2) =>
        ((lookupOut outs (Int.ofNat n)).getD "").data ++ substLoop outs fl rest2
      | none => c :: substLoop outs fl rest := rfl

/-- The scan never matches at a character that is not `{`. -/
theorem matchPlaceholder_not_brace {c : Char} (t : List Char) (hc : c ≠ '\x7b') :
    matchPlaceholder (c :: t) = none := by
  have hbeq : ('\x7b' == c) = false := beq_eq_false_iff_ne.mpr (Ne.symm hc)
  have hpre : ("\x7b\x7bstep_".data).isPrefixOf (c :: t) = false := by
    rw [show ("\x7b\x7bstep_".data) = '\x7b' :: "\x7bstep_".data from rfl]
    simp [List.isPrefixOf, hbeq]
  unfold matchPlaceholder
  simp [hpre]

/-- The scan matches a placeholder at the head of the text and consumes
exactly it. -/
theorem matchPlaceholder_at_head (ds b : List Char) (hds : ds ≠ [])
    (hdig : ∀ c ∈ ds, c.isDigit = true) :
    matchPlaceholder ("\x7b\x7bstep_".data ++ (ds ++ ("_output\x7d\x7d".data ++ b)))
      = some (digitsToNat ds, b) := by
  unfold matchPlaceholder
  rw [if_pos (isPrefixOf_append_self _ _), List.drop_left' (by rfl)]
  have e1 : ds ++ ("_output\x7d\x7d".data ++ b)
      = ds ++ '_' :: ("output\x7d\x7d".data ++ b) := rfl
  rw [e1, takeWhile_append_all Char.isDigit ds hdig '_' _ (by decide),
    dropWhile_append_all Char.isDigit ds hdig '_' _ (by decide)]
  rw [if_pos ⟨hds, by
    rw [show '_' :: ("output\x7d\x7d".data ++ b) = "_output\x7d\x7d".data ++ b from rfl]
    exact isPrefixOf_append_self _ _⟩]
  rw [show '_' :: ("output\x7d\x7d".data ++ b) = "_output\x7d\x7d".data ++ b from rfl,
    List.drop_left' (by rfl)]

/-- The full scan over preamble + placeholder + tail: the preamble is
copied, the placeholder is replaced by the stored output (empty when the
id is absent), and the scan continues on the tail alone. -/
theorem substLoop_resolves (outs : List (Int × String)) (ds : List Char)
    (hds : ds ≠ []) (hdig : ∀ c ∈ ds, c.isDigit = true) :
    ∀ (a : List Char) (fuel : Nat) (b : List Char),
      '\x7b' ∉ a →
      (a ++ ("\x7b\x7bstep_".data ++ (ds ++ ("_output\x7d\x7d".data ++ b)))).length ≤ fuel →
      substLoop outs fuel (a ++ ("\x7b\x7bstep_".data ++ (ds ++ ("_output\x7d\x7d".data ++ b))))
        = a ++ (((lookupOut outs (Int.ofNat (digitsToNat ds))).getD "").data
            ++ substLoop outs b.length b) := by
  intro a
  induction a with
  | nil =>
    intro fuel b _ hlen
    have e7 : ("\x7b\x7bstep_".data).length = 7 := rfl
    have e9 : ("_output\x7d\x7d".data).length = 9 := rfl
    simp only [List.nil_append, List.length_append, e7, e9] at hlen
    cases fuel with
    | zero => omega
    | succ fl =>
      rw [List.nil_append, show "\x7b\x7bstep_".data ++ (ds ++ ("_output\x7d\x7d".data ++ b))
          = '\x7b' :: ("\x7bstep_".data ++ (ds ++ ("_output\x7d\x7d".data ++ b))) from rfl,
        substLoop_cons]
      rw [show '\x7b' :: ("\x7bstep_".data ++ (ds ++ ("_output\x7d\x7d".data ++ b)))
          = "\x7b\x7bstep_".data ++ (ds ++ ("_output\x7d\x7d".data ++ b)) from rfl]
      simp only [matchPlaceholder_at_head ds b hds hdig]
      rw [List.nil_append, substLoop_mono outs fl b b.length (by omega) (le_refl _)]
  | cons c a' ih =>
    intro fuel b hna hlen
    have hc : c ≠ '\x7b' := fun h => hna (h ▸ List.mem_cons_self c a')
    have hlc : ((c :: a') ++ ("\x7b\x7bstep_".data ++ (ds ++ ("_output\x7d\x7d".data ++ b)))).length
        = (a' ++ ("\x7b\x7bstep_".data ++ (ds ++ ("_output\x7d\x7d".data ++ b)))).length + 1 := by
      simp
    cases fuel with
    | zero => omega
    | succ fl =>
      rw [List.cons_append, substLoop_cons,
        matchPlaceholder_not_brace _ hc]
      rw [ih fl b (fun h => hna (List.mem_cons_of_mem _ h)) (by omega)]
      rfl

/-- C6: a string input value of the form `prefix {{step_N_output}} tail`
(brace-free prefix, decimal digits naming `N`) resolves to the prefix,
then the literal stored output of step `N` when the accumulated
step-output map holds one — and the empty string when `N` is absent from
the map, which is the case for failed steps, since `runPlan` records
outputs only on success — then the resolved tail; resolution is a total
function (never raises) and non-string input values pass through
unchanged. -/
theorem placeholder_resolution (outs : List (Int × String)) (a ds b : List Char)
    (n : Nat) (ha : '\x7b' ∉ a) (hds : ds ≠ [])
    (hdig : ∀ c ∈ ds, c.isDigit = true) (hn : digitsToNat ds = n) :
    (pySubst outs ⟨a ++ ("\x7b\x7bstep_".data ++ (ds ++ ("_output\x7d\x7d".data ++ b)))⟩
      = ⟨a ++ (((lookupOut outs (Int.ofNat n)).getD "").data
          ++ substLoop outs b.length b)⟩) ∧
    (∀ m : Int, lookupOut outs m = none → (lookupOut outs m).getD "" = "") ∧
    (∀ v : Value, (∀ s, v ≠ Value.str s) → resolveValue outs v = v) := by
  refine ⟨?_, ?_, ?_⟩
  · subst hn
    exact congrArg String.mk
      (substLoop_resolves outs ds hds hdig a
        (a ++ ("\x7b\x7bstep_".data ++ (ds ++ ("_output\x7d\x7d".data ++ b)))).length
        b ha (le_refl _))
  · intro m hm
    rw [hm]
    rfl
  · intro v hv
    cases v with
    | str s => exact absurd rfl (hv s)
    | intV n2 => rfl
    | strList l2 => rfl

/-- C6 witness: with step 1's output recorded, a concrete input resolves
to the literal output text; with an empty map it resolves to empty. -/
theorem placeholder_resolution_witness :
    pySubst [((1 : Int), "HELLO")] "x: \x7b\x7bstep_1_output\x7d\x7d!" = "x: HELLO!" ∧
    pySubst [] "x: \x7b\x7bstep_1_output\x7d\x7d!" = "x: !" := by
  constructor
  · have h := (placeholder_resolution [((1 : Int), "HELLO")] "x: ".data ['1'] "!".data 1
      (by decide) (by decide) (by decide) (by decide)).1
    exact h
  · have h := (placeholder_resolution [] "x: ".data ['1'] "!".data 1
      (by decide) (by decide) (by decide) (by decide)).1
    exact h

/-- The default of `lastOutput` is irrelevant on non-empty logs. -/
theorem lastOutput_default_irrel :
    ∀ (a : StepLog) (as : List StepLog) (d1 d2 : String),
      lastOutput (a :: as) d1 = lastOutput (a :: as) d2 := by
  intro a as
  induction as generalizing a with
  | nil => intro _ _; rfl
  | cons b bs ih =>
    intro d1 d2
    unfold lastOutput
    rw [List.getLast?_cons_cons]
    exact ih b d1 d2

/-- `lastOutput` peels one record. -/
theorem lastOutput_cons (lg : StepLog) (logs : List StepLog) (d : String) :
    lastOutput (lg :: logs) d = lastOutput logs lg.output := by
  cases logs with
  | nil => rfl
  | cons a as =>
    unfold lastOutput
    rw [List.getLast?_cons_cons]
    exact lastOutput_default_irrel a as d lg.output

/-- If the tool never raises and the evaluator always returns a failed
decision, the attempt loop runs its full budget and produces the
post-loop failure record built from the final attempt's result and
evaluation. -/
theorem execAttempts_all_fail (bk : StepBehavior) (step : PlanStep) (ctx : String)
    (hnoraise : ∀ (inp : InputMap) (a : Nat), ∃ r, bk.toolExec inp a = .ok r)
    (hevalfail : ∀ (r : ToolResult) (a : Nat),
      ∃ e, bk.evalFn r a = .ok e ∧ e.success = false) :
    ∀ (rem attempt : Nat) (inp : InputMap) (last : Option (ToolResult × EvalResult)),
      rem ≥ 1 →
      ∃ (rF : ToolResult) (eF : EvalResult) (inpF : InputMap),
        bk.toolExec inpF (attempt + rem - 1) = .ok rF ∧
        bk.evalFn rF (attempt + rem - 1) = .ok eF ∧ eF.success = false ∧
        (execAttempts bk step ctx inp attempt rem last).1 =
          { step_id := step.id, tool := step.tool, description := step.description,
            output := rF.output, error := eF.reason, success := false,
            attempts := MAX_RETRIES } := by
  intro rem
  induction rem with
  | zero =>
    intro attempt inp last h
    omega
  | succ rm ih =>
    intro attempt inp last _
    obtain ⟨r1, hr1⟩ := hnoraise inp attempt
    obtain ⟨e1, he1, hf1⟩ := hevalfail r1 attempt
    cases rm with
    | zero =>
      refine ⟨r1, e1, inp, ?_, ?_, hf1, ?_⟩
      · rw [show attempt + 1 - 1 = attempt from by omega]
        exact hr1
      · rw [show attempt + 1 - 1 = attempt from by omega]
        exact he1
      · simp only [execAttempts, hr1, evalDecision, he1]
        rw [if_neg (by simp [hf1])]
        rfl
    | succ rm' =>
      obtain ⟨rF, eF, inpF, hF1, hF2, hF3, hF4⟩ := ih (attempt + 1)
        (if e1.retry_hint ≠ "" ∧ step.tool = "code_executor" then
            setKey inp "code" (Value.str ("# Previous failed: " ++ e1.retry_hint ++ "\n"
              ++ getStrD inp "code" "")) else inp)
        (some (r1, e1)) (by omega)
      have earith : attempt + 1 + (rm' + 1) - 1 = attempt + (rm' + 1 + 1) - 1 := by omega
      refine ⟨rF, eF, inpF, earith ▸ hF1, earith ▸ hF2, hF3, ?_⟩
      simp only [execAttempts, hr1, evalDecision, he1]
      rw [if_neg (by simp [hf1])]
      exact hF4

/-- A step whose tool never raises and whose evaluations always fail
settles, for every resolved input, as the exhausted-retries failure
record carrying the last attempt's result and evaluator reason. -/
theorem execStep_always_fails (reg : List String) (bk : StepBehavior) (ctx : String)
    (k : PlanStep)
    (hreg : reg.contains k.tool = true)
    (hsafe : k.tool = "code_executor" →
      ∀ inp : InputMap, (validate_code (getStrD inp "code" "")).allowed = true)
    (hnoraise : ∀ (inp : InputMap) (a : Nat), ∃ r, bk.toolExec inp a = .ok r)
    (hevalfail : ∀ (r : ToolResult) (a : Nat),
      ∃ e, bk.evalFn r a = .ok e ∧ e.success = false) :
    ∀ inp : InputMap,
      ∃ (rF : ToolResult) (eF : EvalResult) (inpF : InputMap),
        bk.toolExec inpF MAX_RETRIES = .ok rF ∧
        bk.evalFn rF MAX_RETRIES = .ok eF ∧ eF.success = false ∧
        (execStep reg bk ctx { k with input := inp }).1 =
          { step_id := k.id, tool := k.tool, description := k.description,
            output := rF.output, error := eF.reason, success := false,
            attempts := MAX_RETRIES } := by
  intro inp
  obtain ⟨rF, eF, inpF, hF1, hF2, hF3, hF4⟩ :=
    execAttempts_all_fail bk { k with input := inp } ctx hnoraise hevalfail
      MAX_RETRIES 1 inp none (by decide)
  have e1 : 1 + MAX_RETRIES - 1 = MAX_RETRIES := rfl
  rw [e1] at hF1 hF2
  refine ⟨rF, eF, inpF, hF1, hF2, hF3, ?_⟩
  unfold execStep
  rw [if_neg (fun hc => hc.2 (hsafe hc.1 inp)), if_neg (not_not_intro hreg)]
  exact hF4

/-- Every record the attempt loop can produce carries the step's id. -/
theorem execAttempts_step_id (bk : StepBehavior) (step : PlanStep) (ctx : String) :
    ∀ (rem : Nat) (inp : InputMap) (attempt : Nat)
      (last : Option (ToolResult × EvalResult)),
      (execAttempts bk step ctx inp attempt rem last).1.step_id = step.id := by
  intro rem
  induction rem with
  | zero => intro _ _ _; rfl
  | succ rm ih =>
    intro inp attempt last
    simp only [execAttempts]
    cases hb : bk.toolExec inp attempt with
    | raise msg => rfl
    | ok r =>
      by_cases hs : (evalDecision bk.evalFn r attempt).success = true
      · simp [hs]
      · simp [hs, ih]

/-- Every record the executor can produce carries the step's id. -/
theorem execStep_step_id (reg : List String) (bk : StepBehavior) (ctx : String)
    (step : PlanStep) : (execStep reg bk ctx step).1.step_id = step.id := by
  unfold execStep
  split_ifs <;> first
    | rfl
    | exact execAttempts_step_id bk step ctx MAX_RETRIES step.input 1 none

/-- Running the loop over a prefix of steps that all succeed produces
their success records, threads the last success's output forward, and
continues on the remaining steps with the updated output map. -/
theorem runPlan_pre (reg : List String) (b : Int → StepBehavior) (ctx : Int → String) :
    ∀ (pre : List PlanStep),
      (∀ s ∈ pre, ∀ inp : InputMap,
        (execStep reg (b s.id) (ctx s.id) { s with input := inp }).1.success = true) →
      ∀ (rest : List PlanStep) (outs : List (Int × String)) (lastOut : String),
        ∃ (logs : List StepLog) (outs2 : List (Int × String)),
          runPlan reg b ctx (pre ++ rest) outs lastOut =
            { success := (runPlan reg b ctx rest outs2 (lastOutput logs lastOut)).success,
              output := (runPlan reg b ctx rest outs2 (lastOutput logs lastOut)).output,
              steps := logs ++ (runPlan reg b ctx rest outs2 (lastOutput logs lastOut)).steps,
              error := (runPlan reg b ctx rest outs2 (lastOutput logs lastOut)).error } ∧
          logs.map (fun lg => lg.step_id) = pre.map (fun s => s.id) ∧
          (∀ lg ∈ logs, lg.success = true) := by
  intro pre
  induction pre with
  | nil =>
    intro _ rest outs lastOut
    exact ⟨[], outs, rfl, rfl, by simp⟩
  | cons s pre' ih =>
    intro hpre rest outs lastOut
    have hs := hpre s (List.mem_cons_self s pre')
    have hpre' : ∀ s2 ∈ pre', ∀ inp : InputMap,
        (execStep reg (b s2.id) (ctx s2.id) { s2 with input := inp }).1.success = true :=
      fun s2 h2 inp => hpre s2 (List.mem_cons_of_mem _ h2) inp
    obtain ⟨logs', outs2, heq, hids, hsucc⟩ := ih hpre' rest
      (setOut outs s.id (execStep reg (b s.id) (ctx s.id)
        { id := s.id, tool := s.tool, description := s.description,
          input := resolveInput outs s.input, depends_on := s.depends_on }).1.output)
      (execStep reg (b s.id) (ctx s.id)
        { id := s.id, tool := s.tool, description := s.description,
          input := resolveInput outs s.input, depends_on := s.depends_on }).1.output
    refine ⟨(execStep reg (b s.id) (ctx s.id)
        { id := s.id, tool := s.tool, description := s.description,
          input := resolveInput outs s.input, depends_on := s.depends_on }).1 :: logs',
      outs2, ?_, ?_, ?_⟩
    · show runPlan reg b ctx (s :: (pre' ++ rest)) outs lastOut = _
      simp only [runPlan]
      rw [if_pos (hs (resolveInput outs s.input)), heq, lastOutput_cons]
      rfl
    · simp only [List.map_cons, hids, execStep_step_id]
    · intro lg hlg
      rcases List.mem_cons.mp hlg with h | h
      · subst h
        exact hs (resolveInput outs s.input)
      · exact hsucc lg h

/-- C1: when every step before `k` succeeds and step `k`'s evaluations
fail on every attempt (its tool registered, its code passing the safety
gate, no tool fault), the task fails: the result's success is false, its
records are exactly one per step up to and including `k` (none for later
steps), the records before the last are the successful ones and the
result's output is the last of their outputs, and the last record is
`k`'s with `attempts = MAX_RETRIES`, the task error naming step `k` and
carrying the record's error, which is the last attempt's evaluator
reason. -/
theorem coreLoop_fail_fast (reg : List String) (b : Int → StepBehavior)
    (ctx : Int → String) (pre : List PlanStep) (k : PlanStep) (post : List PlanStep)
    (Hpre : ∀ s ∈ pre, ∀ inp : InputMap,
      (execStep reg (b s.id) (ctx s.id) { s with input := inp }).1.success = true)
    (Hreg : reg.contains k.tool = true)
    (Hsafe : k.tool = "code_executor" →
      ∀ inp : InputMap, (validate_code (getStrD inp "code" "")).allowed = true)
    (Hnoraise : ∀ (inp : InputMap) (a : Nat), ∃ r, (b k.id).toolExec inp a = .ok r)
    (Hevalfail : ∀ (r : ToolResult) (a : Nat),
      ∃ e, (b k.id).evalFn r a = .ok e ∧ e.success = false) :
    (runPlan reg b ctx (pre ++ k :: post) [] "").success = false ∧
    (runPlan reg b ctx (pre ++ k :: post) [] "").steps.map (fun lg => lg.step_id)
      = pre.map (fun s => s.id) ++ [k.id] ∧
    (∀ lg ∈ (runPlan reg b ctx (pre ++ k :: post) [] "").steps.dropLast,
      lg.success = true) ∧
    (runPlan reg b ctx (pre ++ k :: post) [] "").output
      = lastOutput (runPlan reg b ctx (pre ++ k :: post) [] "").steps.dropLast "" ∧
    ∃ lgk, (runPlan reg b ctx (pre ++ k :: post) [] "").steps.getLast? = some lgk ∧
      lgk.success = false ∧ lgk.attempts = MAX_RETRIES ∧ lgk.step_id = k.id ∧
      (runPlan reg b ctx (pre ++ k :: post) [] "").error
        = "Step " ++ toString k.id ++ " failed: " ++ lgk.error ∧
      ∃ (rF : ToolResult) (eF : EvalResult) (inpF : InputMap),
        (b k.id).toolExec inpF MAX_RETRIES = .ok rF ∧
        (b k.id).evalFn rF MAX_RETRIES = .ok eF ∧ eF.success = false ∧
        lgk.error = eF.reason ∧ lgk.output = rF.output := by
  obtain ⟨logs, outs2, heq, hids, hsucc⟩ :=
    runPlan_pre reg b ctx pre Hpre (k :: post) [] ""
  obtain ⟨rF, eF, inpF, hF1, hF2, hF3, hF4⟩ :=
    execStep_always_fails reg (b k.id) (ctx k.id) k Hreg Hsafe Hnoraise Hevalfail
      (resolveInput outs2 k.input)
  have hrun : runPlan reg b ctx (k :: post) outs2 (lastOutput logs "") =
      { success := false, output := lastOutput logs "",
        steps := [{ step_id := k.id, tool := k.tool, description := k.description,
                    output := rF.output, error := eF.reason, success := false,
                    attempts := MAX_RETRIES }],
        error := "Step " ++ toString k.id ++ " failed: " ++ eF.reason } := by
    simp only [runPlan]
    rw [hF4, if_neg (by simp)]
  have hall : runPlan reg b ctx (pre ++ k :: post) [] "" =
      { success := false, output := lastOutput logs "",
        steps := logs ++
          [{ step_id := k.id, tool := k.tool, description := k.description,
             output := rF.output, error := eF.reason, success := false,
             attempts := MAX_RETRIES }],
        error := "Step " ++ toString k.id ++ " failed: " ++ eF.reason } := by
    rw [heq, hrun]
  rw [hall]
  refine ⟨rfl, ?_, ?_, ?_, _, List.getLast?_concat logs, rfl, rfl, rfl, rfl,
    rF, eF, inpF, hF1, hF2, hF3, rfl, rfl⟩
  · show (logs ++
        [({ step_id := k.id, tool := k.tool, description := k.description,
            output := rF.output, error := eF.reason, success := false,
            attempts := MAX_RETRIES } : StepLog)]).map (fun lg => lg.step_id)
      = pre.map (fun s => s.id) ++ [k.id]
    rw [List.map_append, hids]
    rfl
  · show ∀ lg ∈ (logs ++
        [({ step_id := k.id, tool := k.tool, description := k.description,
            output := rF.output, error := eF.reason, success := false,
            attempts := MAX_RETRIES } : StepLog)]).dropLast, lg.success = true
    rw [List.dropLast_concat]
    exact hsucc
  · show lastOutput logs "" = lastOutput (logs ++
        [({ step_id := k.id, tool := k.tool, description := k.description,
            output := rF.output, error := eF.reason, success := false,
            attempts := MAX_RETRIES } : StepLog)]).dropLast ""
    rw [List.dropLast_concat]

/-- C1 witness: a three-step plan whose first step always succeeds with
output `out1` and whose second step fails every evaluation aborts with
success false at step 2; step 3 is never recorded. -/
theorem coreLoop_fail_fast_witness :
    (runPlan ["web_search"]
        (fun i => if i = 1 then
            ⟨fun _ _ => .ok { output := "out1" },
             fun _ _ => .ok { success := true, reason := "ok" }⟩
          else
            ⟨fun _ _ => .ok { output := "bad", error := "boom", exit_code := 1 },
             fun _ _ => .ok { success := false, reason := "no good" }⟩)
        (fun _ => "c")
        ([{ id := 1, tool := "web_search", description := "s1",
            input := [("query", Value.str "q")] }] ++
          { id := 2, tool := "web_search", description := "k", input := [] } ::
          [{ id := 3, tool := "web_search", description := "s3", input := [] }])
        [] "").success = false := by
  exact (coreLoop_fail_fast ["web_search"]
    (fun i => if i = 1 then
        ⟨fun _ _ => .ok { output := "out1" },
         fun _ _ => .ok { success := true, reason := "ok" }⟩
      else
        ⟨fun _ _ => .ok { output := "bad", error := "boom", exit_code := 1 },
         fun _ _ => .ok { success := false, reason := "no good" }⟩)
    (fun _ => "c")
    [{ id := 1, tool := "web_search", description := "s1",
       input := [("query", Value.str "q")] }]
    { id := 2, tool := "web_search", description := "k", input := [] }
    [{ id := 3, tool := "web_search", description := "s3", input := [] }]
    (by
      intro s hs inp
      rw [List.mem_singleton] at hs
      subst hs
      rfl)
    rfl
    (fun h => absurd h (by decide))
    (fun inp a => ⟨{ output := "bad", error := "boom", exit_code := 1 }, rfl⟩)
    (fun r a => ⟨{ success := false, reason := "no good" }, rfl, rfl⟩)).1
